import Mathlib

/-!
Verification of the DATN real-time market-analytics core.

Shallow embedding of the pipeline implemented in `src/shared/schema.ts`
(`WebSocketManager`), `src/server/services/aiAnalysis.ts`
(`AIAnalysisService`) and the technical-analysis service
(`TechnicalAnalysisService`).  JavaScript numbers are modelled as exact
rationals; the one place where an IEEE special value matters (0/0 = NaN in
the pattern detector's normalization of a flat window) is modelled by an
explicit branch, as explained at `detectPatterns`.
-/

namespace DATN

/-! ## PriceHistoryBuffer — `WebSocketManager.updatePriceHistory` -/

/-- One append to a symbol's price history, from
`WebSocketManager.updatePriceHistory` (schema.ts): `history.push(price)`
then `if (history.length > 100) history.shift()`.  `shift` removes the
oldest (front) element, modelled by `List.tail`. -/
def updatePriceHistory (history : List ℚ) (price : ℚ) : List ℚ :=
  let h := history ++ [price]
  if h.length > 100 then h.tail else h

/-- A sequence of appends to one symbol's history, starting from the empty
history installed by `priceHistory.set(symbol, [])`. -/
def appendAll (prices : List ℚ) : List ℚ :=
  prices.foldl updatePriceHistory []

/-! ## RecommendationCache — `AIAnalysisService.analyzeMarket`
(src/server/services/aiAnalysis.ts) -/

inductive TradeAction where
  | buy | sell | hold
deriving DecidableEq

inductive RiskLevel where
  | low | medium | high
deriving DecidableEq

/-- The `AIAnalysisResult` interface of aiAnalysis.ts. -/
structure AIAnalysisResult where
  recommendation : TradeAction
  confidence : ℚ
  reasoning : List String
  marketSentiment : String
  riskLevel : RiskLevel
deriving DecidableEq

/-- One entry of `analysisCache : Map<string, {result, timestamp}>`. -/
structure CacheEntry where
  result : AIAnalysisResult
  timestamp : ℤ
deriving DecidableEq

/-- The `analysisCache` map, as an association list keyed by symbol. -/
abbrev AnalysisCache := List (String × CacheEntry)

def cacheGet (cache : AnalysisCache) (symbol : String) : Option CacheEntry :=
  (cache.find? (fun e => e.1 = symbol)).map Prod.snd

/-- `analysisCache.set(symbol, entry)`: replace the symbol's entry. -/
def cacheSet (cache : AnalysisCache) (symbol : String) (entry : CacheEntry) :
    AnalysisCache :=
  (symbol, entry) :: cache.filter (fun e => e.1 ≠ symbol)

/-- `CACHE_DURATION = 10000` milliseconds. -/
def CACHE_DURATION : ℤ := 10000

/-- The `defaultResult` cached and returned by the catch block of
`analyzeMarket` on any oracle failure. -/
def defaultResult : AIAnalysisResult :=
  { recommendation := .hold
    confidence := 1/2
    reasoning := ["Technical analysis system is calibrating"]
    marketSentiment := "neutral"
    riskLevel := .medium }

/-- Result of one `analyzeMarket` call: the returned analysis, the cache
after the call, and whether the OpenAI oracle was invoked. -/
structure AnalyzeOutcome where
  result : AIAnalysisResult
  cache : AnalysisCache
  oracleCalled : Bool
deriving DecidableEq

/-- `AIAnalysisService.analyzeMarket`, with time and the oracle made
explicit: `now` is `Date.now()` at the call, and `oracle` is the outcome of
the OpenAI request (`some r` on success, `none` when the request or the
JSON parse throws, which the catch block turns into `defaultResult`).  The
cache-hit branch returns the cached result without touching the oracle;
both the success and the failure path write a fresh entry stamped `now`. -/
def analyzeMarket (cache : AnalysisCache) (symbol : String) (now : ℤ)
    (oracle : Option AIAnalysisResult) : AnalyzeOutcome :=
  match cacheGet cache symbol with
  | some entry =>
    if now - entry.timestamp < CACHE_DURATION then
      ⟨entry.result, cache, false⟩
    else
      match oracle with
      | some analysis => ⟨analysis, cacheSet cache symbol ⟨analysis, now⟩, true⟩
      | none => ⟨defaultResult, cacheSet cache symbol ⟨defaultResult, now⟩, true⟩
  | none =>
    match oracle with
    | some analysis => ⟨analysis, cacheSet cache symbol ⟨analysis, now⟩, true⟩
    | none => ⟨defaultResult, cacheSet cache symbol ⟨defaultResult, now⟩, true⟩

/-! ## PatternDetector — `TechnicalAnalysisService.detectPatterns` -/

inductive PatternType where
  | triangle | head_and_shoulders | double_top | double_bottom
deriving DecidableEq

/-- The `PatternResult` interface of the technical-analysis service. -/
structure PatternResult where
  type : PatternType
  confidence : ℚ
  startIndex : ℕ
  endIndex : ℕ
deriving DecidableEq

/-- `PATTERN_WINDOW = 30` (also `VOLATILITY_WINDOW = 30`). -/
def PATTERN_WINDOW : ℕ := 30

/-- `tf.min` over the price-window tensor (the `[]` case never arises: the
window always has length 30). -/
def listMin : List ℚ → ℚ
  | [] => 0
  | x :: xs => xs.foldl min x

/-- `tf.max` over the price-window tensor. -/
def listMax : List ℚ → ℚ
  | [] => 0
  | x :: xs => xs.foldl max x

/-- `prices.slice(-PATTERN_WINDOW)`, for histories of length ≥ 30. -/
def priceWindowOf (prices : List ℚ) : List ℚ :=
  prices.drop (prices.length - PATTERN_WINDOW)

/-- `tf.div(tf.sub(input, min), tf.sub(max, min))`: element-wise
`(x - min) / (max - min)` over the window. -/
def normalizeWindow (w : List ℚ) : List ℚ :=
  w.map (fun x => (x - listMin w) / (listMax w - listMin w))

/-- `tf.conv2d(..., kernel, 1, 'valid')` with a 1×5 kernel, squeezed to a
response sequence of length `xs.length - 4`: cross-correlation
`response[i] = Σ_j kernel[j] · xs[i+j]`. -/
def conv5 (xs : List ℚ) (k0 k1 k2 k3 k4 : ℚ) : List ℚ :=
  (List.range (xs.length - 4)).map (fun i =>
    k0 * xs.getD i 0 + k1 * xs.getD (i + 1) 0 + k2 * xs.getD (i + 2) 0 +
      k3 * xs.getD (i + 3) 0 + k4 * xs.getD (i + 4) 0)

/-- The per-response-index loop of `detectPatterns`: for every index `i`,
`confidence = Math.abs(response[i])`; push
`{type, confidence, startIndex: i, endIndex: i + 4}` when
`confidence > 0.7`. -/
def patternHits (rs : List ℚ) (t : PatternType) : List PatternResult :=
  (List.range rs.length).filterMap (fun i =>
    if 7/10 < |rs.getD i 0| then some ⟨t, |rs.getD i 0|, i, i + 4⟩ else none)

/-- `TechnicalAnalysisService.detectPatterns`.  Histories shorter than the
30-price window yield `[]`.  The second branch models the flat window
exactly as IEEE-754 evaluates the source: when `max == min` every
normalized entry is `0/0 = NaN`, both convolution responses are NaN
throughout, `Math.abs(NaN)` is NaN, and `NaN > 0.7` is false, so the loops
push nothing and the result is `[]`.  Otherwise all values are finite and
the two kernel passes run over the normalized window: triangle kernel
`[1, 0.5, 0, -0.5, -1]` first, then head-and-shoulders `[1, -1, 2, -1, 1]`. -/
def detectPatterns (prices : List ℚ) : List PatternResult :=
  if prices.length < PATTERN_WINDOW then []
  else if listMax (priceWindowOf prices) = listMin (priceWindowOf prices) then []
  else
    patternHits (conv5 (normalizeWindow (priceWindowOf prices))
        1 (1/2) 0 (-(1/2)) (-1)) PatternType.triangle ++
      patternHits (conv5 (normalizeWindow (priceWindowOf prices))
        1 (-1) 2 (-1) 1) PatternType.head_and_shoulders

/-- A 30-price history whose normalized window starts `1,0,1,0,1,0,…,0`:
the head-and-shoulders response at index 0 is `1 + 2 + 1 = 4`. -/
def exAltPrices : List ℚ := [2, 1, 2, 1, 2] ++ List.replicate 25 1

/-! ## VolatilityEngine — `TechnicalAnalysisService.calculateVolatility`.
Only the VaR/ES tail of the computation is needed for the claims; the
natural logarithm is kept abstract as a parameter `logFn`, since the
claims depend only on the number and order of the returns. -/

def VOLATILITY_WINDOW : ℕ := 30

/-- The log-return loop: `for i in 1..n-1, returns.push(log(p[i]/p[i-1]))`. -/
def logReturns (logFn : ℚ → ℚ) (prices : List ℚ) : List ℚ :=
  (List.range (prices.length - 1)).map (fun i =>
    logFn (prices.getD (i + 1) 0 / prices.getD i 0))

/-- `varIndex = Math.floor(returns.length * 0.05)`.  For every length that
can occur here (at most 99 returns from a 100-bounded history) the float
product `n * 0.05` floors to exactly `n * 5 / 100`. -/
def varIndexOf (n : ℕ) : ℕ := n * 5 / 100

/-- `returns.sort((a, b) => a - b)`: ascending sort. -/
def sortedReturns (logFn : ℚ → ℚ) (prices : List ℚ) : List ℚ :=
  (logReturns logFn prices).mergeSort (fun a b => decide (a ≤ b))

/-- `expectedShortfall = -tailReturns.reduce(sum) / varIndex` where
`tailReturns = sortedReturns.slice(0, varIndex)`. -/
def expectedShortfallOf (logFn : ℚ → ℚ) (prices : List ℚ) : ℚ :=
  -(((sortedReturns logFn prices).take
      (varIndexOf (logReturns logFn prices).length)).sum) /
    (varIndexOf (logReturns logFn prices).length : ℚ)

/-! ## Market snapshots and the BroadcastHub — `WebSocketManager`
(schema.ts) -/

inductive VolTrend where
  | increasing | decreasing | stable
deriving DecidableEq

structure RiskMetrics where
  valueAtRisk : ℚ
  expectedShortfall : ℚ
deriving DecidableEq

structure VolatilityMetrics where
  historicalVolatility : ℚ
  relativeVolatility : ℚ
  volatilityTrend : VolTrend
  riskMetrics : RiskMetrics
deriving DecidableEq

/-- The `MarketData` interface of schema.ts: the snapshot broadcast to
subscribers, with the optional analytics fields. -/
structure MarketData where
  symbol : String
  exchange : String
  price : ℚ
  volume24h : ℚ
  timestamp : ℤ
  patternAnalysis : Option (List PatternResult)
  volatilityMetrics : Option VolatilityMetrics
  aiAnalysis : Option AIAnalysisResult
deriving DecidableEq

/-- The `lastMarketData : Map<string, MarketData>` of the manager, as an
association list keyed by symbol. -/
abbrev LastMarketData := List (String × MarketData)

/-- The connection handler's catch-up loop:
`lastMarketData.forEach((data, symbol) => { if (data) ws.send(JSON.stringify(data)) })`.
`data` is always a truthy object for entries present in the map, so every
entry is sent; a failing send is caught, logged and skipped, without
stopping the loop. -/
def initialSendsOnConnect (m : LastMarketData) : List MarketData :=
  m.foldl (fun sent entry => sent ++ [entry.2]) []

/-- A subscriber channel as the broadcast loop sees it: its identity in
the `clients` set, whether `readyState === WebSocket.OPEN`, and whether
`client.send(data)` throws for this broadcast. -/
structure Client where
  id : ℕ
  isOpen : Bool
  sendFails : Bool
deriving DecidableEq

/-- The subscriber set after one `broadcast(data)` pass: the loop deletes
a client exactly when it is OPEN and its `send` throws (the catch block);
clients not in the OPEN state are skipped and stay in the set. -/
def broadcastSurvivors (clients : List Client) : List Client :=
  clients.filter (fun c => !(c.isOpen && c.sendFails))

/-- The clients that actually receive the payload during one
`broadcast(data)` pass: OPEN clients whose `send` does not throw. -/
def broadcastDelivered (clients : List Client) : List Client :=
  clients.filter (fun c => c.isOpen && !c.sendFails)

/-! ## PortfolioValuer — `WebSocketManager.startPortfolioTracking` -/

/-- One row of the user's portfolio as used by `updatePortfolioValue`:
`position.symbol` and the numeric `position.amount`. -/
structure Position where
  symbol : String
  amount : ℚ
deriving DecidableEq

/-- `this.lastMarketData.get(position.symbol)?.price || 0`: the symbol's
last snapshot price, or 0 when the symbol is absent from the map (`|| 0`
also maps a literal price of 0 to 0, which is the same value). -/
def currentPriceOf (m : LastMarketData) (symbol : String) : ℚ :=
  match (m.find? (fun e => e.1 = symbol)).map (fun e => e.2.price) with
  | some p => p
  | none => 0

/-- The `portfolio.reduce((sum, position) => sum + amount * currentPrice, 0)`
fold of `updatePortfolioValue`. -/
def totalValue (portfolio : List Position) (m : LastMarketData) : ℚ :=
  portfolio.foldl
    (fun sum position => sum + position.amount * currentPriceOf m position.symbol) 0

/-- `updatePortfolioValue`: the value recorded via
`storage.recordPortfolioValue` — recorded only when the portfolio is
non-empty (`if (portfolio.length > 0)`). -/
def updatePortfolioValue (portfolio : List Position) (m : LastMarketData) :
    Option ℚ :=
  if portfolio.length > 0 then some (totalValue portfolio m) else none

/-- A concrete BTC snapshot used by witnesses. -/
def btcSnapshot : MarketData :=
  ⟨"BTC/USD", "crypto", 95000, 6000, 1700000000, none, none, none⟩

/-- A concrete ETH snapshot used by witnesses. -/
def ethSnapshot : MarketData :=
  ⟨"ETH/USD", "crypto", 3200, 5500, 1700000000, none, none, none⟩

/-! ## Theorems -/

theorem appendAll_drop (prices : List ℚ) :
    appendAll prices = prices.drop (prices.length - 100) := by
  induction prices using List.reverseRecOn with
  | nil => rfl
  | append_singleton l p ih =>
    rw [appendAll, List.foldl_append, List.foldl_cons, List.foldl_nil, ← appendAll, ih]
    unfold updatePriceHistory
    by_cases hle : l.length ≤ 100
    · have h0 : l.length - 100 = 0 := by omega
      rw [h0, List.drop_zero]
      by_cases h100 : l.length = 100
      · have hcond : (l ++ [p]).length > 100 := by simp [h100]
        rw [if_pos hcond]
        have : (l ++ [p]).length - 100 = 1 := by simp [h100]
        rw [this, ← List.drop_one]
      · have hcond : ¬ (l ++ [p]).length > 100 := by
          simp only [List.length_append, List.length_singleton]; omega
        rw [if_neg hcond]
        have : (l ++ [p]).length - 100 = 0 := by
          simp only [List.length_append, List.length_singleton]; omega
        rw [this, List.drop_zero]
    · push_neg at hle
      have hdlen : (l.drop (l.length - 100)).length = 100 := by
        rw [List.length_drop]; omega
      have hcond : (l.drop (l.length - 100) ++ [p]).length > 100 := by
        simp [hdlen]
      rw [if_pos hcond]
      have h1 : (l ++ [p]).length - 100 = l.length - 99 := by
        simp only [List.length_append, List.length_singleton]; omega
      have h2 : 1 ≤ (l.drop (l.length - 100)).length := by rw [hdlen]; omega
      have h3 : l.length - 99 ≤ l.length := by omega
      rw [h1, ← List.drop_one, List.drop_append_of_le_length h2,
        List.drop_drop, List.drop_append_of_le_length h3]
      congr 2
      omega

/-- C1: the per-symbol price history is bounded and FIFO: after any sequence
of appends via `updatePriceHistory` starting from the empty history, the
stored history is exactly the most recent `min (total appended) 100` prices
in append order (`List.drop (length - 100)` keeps the suffix, so appending
150 prices leaves exactly the last 100, the oldest 50 discarded). -/
theorem C1_price_history_bounded_fifo (prices : List ℚ) :
    appendAll prices = prices.drop (prices.length - 100) ∧
    (appendAll prices).length = min prices.length 100 := by
  refine ⟨appendAll_drop prices, ?_⟩
  rw [appendAll_drop, List.length_drop]
  omega

theorem cacheGet_cacheSet (cache : AnalysisCache) (symbol : String)
    (entry : CacheEntry) :
    cacheGet (cacheSet cache symbol entry) symbol = some entry := by
  simp [cacheGet, cacheSet, List.find?]

/-- C2 counterexample: the de-duplication guarantee fails when the first
call is itself a cache hit on a nearly expired entry.  With an entry for
the symbol stamped at time 0, a call at t=9500 is a hit, and a second call
at t=10500 — only 1 second after the first, well under the 10-second TTL —
finds the entry expired and invokes the oracle again. -/
theorem C2_counterexample :
    (10500 : ℤ) - 9500 < CACHE_DURATION ∧
    (analyzeMarket [("BTC/USD", ⟨⟨.buy, 9/10, ["momentum"], "bullish", .low⟩, 0⟩)]
      "BTC/USD" 9500
      (some ⟨.buy, 9/10, ["momentum"], "bullish", .low⟩)).oracleCalled = false ∧
    (analyzeMarket
      (analyzeMarket [("BTC/USD", ⟨⟨.buy, 9/10, ["momentum"], "bullish", .low⟩, 0⟩)]
        "BTC/USD" 9500
        (some ⟨.buy, 9/10, ["momentum"], "bullish", .low⟩)).cache
      "BTC/USD" 10500
      (some ⟨.buy, 9/10, ["momentum"], "bullish", .low⟩)).oracleCalled = true := by
  with_unfolding_all decide

/-- C2 (amended): recommendation-cache de-duplication within TTL, provided
the first call actually consults the oracle (the symbol's cache entry is
absent or already expired at the first call).  Then a second call for the
same symbol less than 10 seconds later performs no oracle invocation and
returns the identical result of the first call, whatever the oracle would
answer the second time. -/
theorem C2_cache_dedup (cache : AnalysisCache) (symbol : String)
    (t1 t2 : ℤ) (r : AIAnalysisResult) (oracle2 : Option AIAnalysisResult)
    (hmiss : ∀ entry, cacheGet cache symbol = some entry →
      CACHE_DURATION ≤ t1 - entry.timestamp)
    (_hgap : 0 ≤ t2 - t1) (hlt : t2 - t1 < CACHE_DURATION) :
    (analyzeMarket cache symbol t1 (some r)).result = r ∧
    (analyzeMarket cache symbol t1 (some r)).oracleCalled = true ∧
    (analyzeMarket (analyzeMarket cache symbol t1 (some r)).cache symbol t2
      oracle2).oracleCalled = false ∧
    (analyzeMarket (analyzeMarket cache symbol t1 (some r)).cache symbol t2
      oracle2).result = (analyzeMarket cache symbol t1 (some r)).result := by
  have hfirst : analyzeMarket cache symbol t1 (some r) =
      ⟨r, cacheSet cache symbol ⟨r, t1⟩, true⟩ := by
    cases hget : cacheGet cache symbol with
    | none => simp [analyzeMarket, hget]
    | some entry =>
      have h := hmiss entry hget
      have hexp : ¬ (t1 - entry.timestamp < CACHE_DURATION) := by omega
      simp [analyzeMarket, hget, hexp]
  have hsecond : analyzeMarket (cacheSet cache symbol ⟨r, t1⟩) symbol t2 oracle2 =
      ⟨r, cacheSet cache symbol ⟨r, t1⟩, false⟩ := by
    simp [analyzeMarket, cacheGet_cacheSet, hlt]
  rw [hfirst, hsecond]
  exact ⟨rfl, rfl, rfl, rfl⟩

/-- Witness for C2 (amended): a fresh cache, a successful oracle call at
t=0, and a second call at t=1000 for the same symbol. -/
theorem C2_cache_dedup_witness :
    (analyzeMarket [] "BTC/USD" 0 (some ⟨.buy, 9/10, ["momentum"], "bullish", .low⟩)).result
        = ⟨.buy, 9/10, ["momentum"], "bullish", .low⟩ ∧
    (analyzeMarket [] "BTC/USD" 0 (some ⟨.buy, 9/10, ["momentum"], "bullish", .low⟩)).oracleCalled
        = true ∧
    (analyzeMarket (analyzeMarket [] "BTC/USD" 0
        (some ⟨.buy, 9/10, ["momentum"], "bullish", .low⟩)).cache "BTC/USD" 1000
        none).oracleCalled = false ∧
    (analyzeMarket (analyzeMarket [] "BTC/USD" 0
        (some ⟨.buy, 9/10, ["momentum"], "bullish", .low⟩)).cache "BTC/USD" 1000
        none).result =
      (analyzeMarket [] "BTC/USD" 0
        (some ⟨.buy, 9/10, ["momentum"], "bullish", .low⟩)).result :=
  C2_cache_dedup [] "BTC/USD" 0 1000 ⟨.buy, 9/10, ["momentum"], "bullish", .low⟩ none
    (fun entry h => by simp [cacheGet] at h) (by decide) (by decide)

/-- C3 counterexample: on oracle failure the code does not return the
fallback `{hold, 0.5, ["insufficient data"], neutral, medium}` stated by
the claim — the cached fallback's reasoning is the string
"Technical analysis system is calibrating", not "insufficient data". -/
theorem C3_counterexample :
    (analyzeMarket [] "BTC/USD" 0 none).result.reasoning ≠ ["insufficient data"] := by
  with_unfolding_all decide

/-- C3 (amended): on every oracle failure that reaches the oracle (no fresh
cache entry for the symbol), `analyzeMarket` returns — never throws — the
fixed fallback `{hold, 0.5, ["Technical analysis system is calibrating"],
neutral, medium}` and caches it under the symbol stamped with the call
time, so the oracle is not re-invoked for that symbol until the 10-second
TTL elapses: any later call within 10 seconds is answered from the cache
with the same fallback and `oracleCalled = false`. -/
theorem C3_fallback_cached (cache : AnalysisCache) (symbol : String)
    (t1 t2 : ℤ) (oracle2 : Option AIAnalysisResult)
    (hmiss : ∀ entry, cacheGet cache symbol = some entry →
      CACHE_DURATION ≤ t1 - entry.timestamp)
    (_hgap : 0 ≤ t2 - t1) (hlt : t2 - t1 < CACHE_DURATION) :
    (analyzeMarket cache symbol t1 none).result = defaultResult ∧
    cacheGet (analyzeMarket cache symbol t1 none).cache symbol =
      some ⟨defaultResult, t1⟩ ∧
    (analyzeMarket (analyzeMarket cache symbol t1 none).cache symbol t2
      oracle2).oracleCalled = false ∧
    (analyzeMarket (analyzeMarket cache symbol t1 none).cache symbol t2
      oracle2).result = defaultResult := by
  have hfirst : analyzeMarket cache symbol t1 none =
      ⟨defaultResult, cacheSet cache symbol ⟨defaultResult, t1⟩, true⟩ := by
    cases hget : cacheGet cache symbol with
    | none => simp [analyzeMarket, hget]
    | some entry =>
      have h := hmiss entry hget
      have hexp : ¬ (t1 - entry.timestamp < CACHE_DURATION) := by omega
      simp [analyzeMarket, hget, hexp]
  have hsecond : analyzeMarket (cacheSet cache symbol ⟨defaultResult, t1⟩) symbol t2
      oracle2 = ⟨defaultResult, cacheSet cache symbol ⟨defaultResult, t1⟩, false⟩ := by
    simp [analyzeMarket, cacheGet_cacheSet, hlt]
  rw [hfirst, hsecond]
  exact ⟨rfl, cacheGet_cacheSet cache symbol ⟨defaultResult, t1⟩, rfl, rfl⟩

/-- Witness for C3 (amended): a fresh cache and a failing oracle at t=0,
with a second call at t=5000 whose oracle would succeed. -/
theorem C3_fallback_cached_witness :
    (analyzeMarket [] "ETH/USD" 0 none).result = defaultResult ∧
    cacheGet (analyzeMarket [] "ETH/USD" 0 none).cache "ETH/USD" =
      some ⟨defaultResult, 0⟩ ∧
    (analyzeMarket (analyzeMarket [] "ETH/USD" 0 none).cache "ETH/USD" 5000
      (some ⟨.sell, 4/5, ["overbought"], "bearish", .high⟩)).oracleCalled = false ∧
    (analyzeMarket (analyzeMarket [] "ETH/USD" 0 none).cache "ETH/USD" 5000
      (some ⟨.sell, 4/5, ["overbought"], "bearish", .high⟩)).result = defaultResult :=
  C3_fallback_cached [] "ETH/USD" 0 5000
    (some ⟨.sell, 4/5, ["overbought"], "bearish", .high⟩)
    (fun entry h => by simp [cacheGet] at h) (by decide) (by decide)

theorem le_foldl_max (a : ℚ) (l : List ℚ) : a ≤ l.foldl max a := by
  induction l generalizing a with
  | nil => exact le_refl a
  | cons x xs ih => exact le_trans (le_max_left a x) (ih (max a x))

theorem mem_le_foldl_max {x : ℚ} {l : List ℚ} (h : x ∈ l) (a : ℚ) :
    x ≤ l.foldl max a := by
  induction l generalizing a with
  | nil => cases h
  | cons y ys ih =>
    rcases List.mem_cons.mp h with rfl | hmem
    · exact le_trans (le_max_right a x) (le_foldl_max (max a x) ys)
    · exact ih hmem (max a y)

theorem le_listMax {x : ℚ} {l : List ℚ} (h : x ∈ l) : x ≤ listMax l := by
  cases l with
  | nil => cases h
  | cons y ys =>
    rcases List.mem_cons.mp h with rfl | hmem
    · exact le_foldl_max x ys
    · exact mem_le_foldl_max hmem y

theorem foldl_min_le (a : ℚ) (l : List ℚ) : l.foldl min a ≤ a := by
  induction l generalizing a with
  | nil => exact le_refl a
  | cons x xs ih => exact le_trans (ih (min a x)) (min_le_left a x)

theorem foldl_min_le_mem {x : ℚ} {l : List ℚ} (h : x ∈ l) (a : ℚ) :
    l.foldl min a ≤ x := by
  induction l generalizing a with
  | nil => cases h
  | cons y ys ih =>
    rcases List.mem_cons.mp h with rfl | hmem
    · exact le_trans (foldl_min_le (min a x) ys) (min_le_right a x)
    · exact ih hmem (min a y)

theorem listMin_le {x : ℚ} {l : List ℚ} (h : x ∈ l) : listMin l ≤ x := by
  cases l with
  | nil => cases h
  | cons y ys =>
    rcases List.mem_cons.mp h with rfl | hmem
    · exact foldl_min_le x ys
    · exact foldl_min_le_mem hmem y

theorem foldl_max_mem (a : ℚ) (l : List ℚ) : l.foldl max a ∈ a :: l := by
  induction l generalizing a with
  | nil => exact List.mem_singleton.mpr rfl
  | cons x xs ih =>
    simp only [List.foldl_cons]
    rcases List.mem_cons.mp (ih (max a x)) with heq | hmem
    · rw [heq]
      rcases max_choice a x with h1 | h1 <;> rw [h1] <;> simp
    · exact List.mem_cons_of_mem a (List.mem_cons_of_mem x hmem)

theorem foldl_min_mem (a : ℚ) (l : List ℚ) : l.foldl min a ∈ a :: l := by
  induction l generalizing a with
  | nil => exact List.mem_singleton.mpr rfl
  | cons x xs ih =>
    simp only [List.foldl_cons]
    rcases List.mem_cons.mp (ih (min a x)) with heq | hmem
    · rw [heq]
      rcases min_choice a x with h1 | h1 <;> rw [h1] <;> simp
    · exact List.mem_cons_of_mem a (List.mem_cons_of_mem x hmem)

theorem listMax_mem {l : List ℚ} (h : l ≠ []) : listMax l ∈ l := by
  cases l with
  | nil => exact absurd rfl h
  | cons y ys => exact foldl_max_mem y ys

theorem listMin_mem {l : List ℚ} (h : l ≠ []) : listMin l ∈ l := by
  cases l with
  | nil => exact absurd rfl h
  | cons y ys => exact foldl_min_mem y ys

theorem listMin_le_listMax {l : List ℚ} (h : l ≠ []) : listMin l ≤ listMax l := by
  cases l with
  | nil => exact absurd rfl h
  | cons y ys =>
    exact le_trans (listMin_le (List.mem_cons_self y ys))
      (le_listMax (List.mem_cons_self y ys))

theorem getD_mem {l : List ℚ} {i : ℕ} (h : i < l.length) : l.getD i 0 ∈ l := by
  rw [List.getD_eq_getElem?_getD, List.getElem?_eq_getElem h, Option.getD_some]
  exact List.getElem_mem h

/-- The window of a history of length ≥ 30 has exactly 30 entries. -/
theorem priceWindow_length (prices : List ℚ) (h : PATTERN_WINDOW ≤ prices.length) :
    (priceWindowOf prices).length = PATTERN_WINDOW := by
  rw [priceWindowOf, List.length_drop]
  omega

/-- C6: for every price history of length ≥ 30 whose last 30 prices are all
equal, the window maximum equals the window minimum and `detectPatterns`
returns the empty pattern list.  (In the source this happens because the
`(x - min) / (max - min)` normalization of a flat window is `0/0 = NaN`
throughout, and `Math.abs(NaN) > 0.7` is false at every response index, so
neither kernel loop pushes a pattern.) -/
theorem C6_flat_window_no_patterns (prices : List ℚ)
    (hlen : 30 ≤ prices.length)
    (hflat : ∀ x ∈ priceWindowOf prices, ∀ y ∈ priceWindowOf prices, x = y) :
    detectPatterns prices = [] := by
  have hwne : priceWindowOf prices ≠ [] := by
    intro h
    have := priceWindow_length prices (by simpa [PATTERN_WINDOW] using hlen)
    rw [h] at this
    simp [PATTERN_WINDOW] at this
  have heq : listMax (priceWindowOf prices) = listMin (priceWindowOf prices) :=
    hflat _ (listMax_mem hwne) _ (listMin_mem hwne)
  rw [detectPatterns, if_neg (by simp [PATTERN_WINDOW]; omega), if_pos heq]

set_option maxRecDepth 40000 in
/-- Witness for C6: a perfectly flat 30-price history yields no patterns. -/
theorem C6_flat_window_no_patterns_witness :
    detectPatterns (List.replicate 30 (5 : ℚ)) = [] :=
  C6_flat_window_no_patterns (List.replicate 30 (5 : ℚ))
    (by simp) (by with_unfolding_all decide)

theorem mem_conv5 {xs : List ℚ} {k0 k1 k2 k3 k4 v : ℚ}
    (h : v ∈ conv5 xs k0 k1 k2 k3 k4) :
    ∃ i, i + 4 < xs.length ∧
      v = k0 * xs.getD i 0 + k1 * xs.getD (i + 1) 0 + k2 * xs.getD (i + 2) 0 +
        k3 * xs.getD (i + 3) 0 + k4 * xs.getD (i + 4) 0 := by
  rw [conv5, List.mem_map] at h
  obtain ⟨i, hi, rfl⟩ := h
  rw [List.mem_range] at hi
  exact ⟨i, by omega, rfl⟩

theorem conv5_length (xs : List ℚ) (k0 k1 k2 k3 k4 : ℚ) :
    (conv5 xs k0 k1 k2 k3 k4).length = xs.length - 4 := by
  rw [conv5, List.length_map, List.length_range]

theorem patternHits_spec {rs : List ℚ} {t : PatternType} {p : PatternResult}
    (h : p ∈ patternHits rs t) :
    p.type = t ∧ 7/10 < p.confidence ∧ p.endIndex = p.startIndex + 4 ∧
      p.startIndex < rs.length ∧ p.confidence = |rs.getD p.startIndex 0| := by
  rw [patternHits, List.mem_filterMap] at h
  obtain ⟨i, hi, hf⟩ := h
  rw [List.mem_range] at hi
  by_cases hc : 7/10 < |rs.getD i 0|
  · rw [if_pos hc] at hf
    cases hf
    exact ⟨rfl, hc, rfl, hi, rfl⟩
  · rw [if_neg hc] at hf
    cases hf

theorem normalizeWindow_bounds {w : List ℚ} (hlt : listMin w < listMax w) :
    ∀ y ∈ normalizeWindow w, 0 ≤ y ∧ y ≤ 1 := by
  intro y hy
  rw [normalizeWindow, List.mem_map] at hy
  obtain ⟨x, hx, rfl⟩ := hy
  have h1 := listMin_le hx
  have h2 := le_listMax hx
  have hd : (0:ℚ) < listMax w - listMin w := by linarith
  exact ⟨div_nonneg (by linarith) hd.le, by rw [div_le_one hd]; linarith⟩

/-- Response bound for the triangle kernel `[1, 0.5, 0, -0.5, -1]` over a
series normalized to `[0, 1]`: the largest possible magnitude is 1.5, in
particular at most 4. -/
theorem abs_conv5_triangle_le {xs : List ℚ} (hx : ∀ y ∈ xs, 0 ≤ y ∧ y ≤ 1)
    {v : ℚ} (hv : v ∈ conv5 xs 1 (1/2) 0 (-(1/2)) (-1)) : |v| ≤ 4 := by
  obtain ⟨i, hi, rfl⟩ := mem_conv5 hv
  obtain ⟨ha0, ha1⟩ := hx _ (getD_mem (by omega : i < xs.length))
  obtain ⟨hb0, hb1⟩ := hx _ (getD_mem (by omega : i + 1 < xs.length))
  obtain ⟨hc0, hc1⟩ := hx _ (getD_mem (by omega : i + 2 < xs.length))
  obtain ⟨hd0, hd1⟩ := hx _ (getD_mem (by omega : i + 3 < xs.length))
  obtain ⟨he0, he1⟩ := hx _ (getD_mem (by omega : i + 4 < xs.length))
  rw [abs_le]
  constructor <;> linarith

/-- Response bound for the head-and-shoulders kernel `[1, -1, 2, -1, 1]`
over a series normalized to `[0, 1]`: the response lies in `[-2, 4]`, so
its magnitude is at most 4 — and 4 is attained (see the counterexample to
the `[0, 1]` bound). -/
theorem abs_conv5_hs_le {xs : List ℚ} (hx : ∀ y ∈ xs, 0 ≤ y ∧ y ≤ 1)
    {v : ℚ} (hv : v ∈ conv5 xs 1 (-1) 2 (-1) 1) : |v| ≤ 4 := by
  obtain ⟨i, hi, rfl⟩ := mem_conv5 hv
  obtain ⟨ha0, ha1⟩ := hx _ (getD_mem (by omega : i < xs.length))
  obtain ⟨hb0, hb1⟩ := hx _ (getD_mem (by omega : i + 1 < xs.length))
  obtain ⟨hc0, hc1⟩ := hx _ (getD_mem (by omega : i + 2 < xs.length))
  obtain ⟨hd0, hd1⟩ := hx _ (getD_mem (by omega : i + 3 < xs.length))
  obtain ⟨he0, he1⟩ := hx _ (getD_mem (by omega : i + 4 < xs.length))
  rw [abs_le]
  constructor <;> linarith

set_option maxRecDepth 40000 in
/-- C4 counterexample: `detectPatterns` can emit a pattern with confidence
strictly greater than 1.  On the 30-price history `[2,1,2,1,2,1,1,…,1]`
the normalized window starts `1,0,1,0,1` and the head-and-shoulders
response at index 0 is `1 + 2 + 1 = 4`, emitted with confidence 4. -/
theorem C4_counterexample :
    ∃ p ∈ detectPatterns exAltPrices, 1 < p.confidence := by
  with_unfolding_all decide

/-- C4 (amended): every pattern emitted by `detectPatterns` has confidence
in the closed interval `[0, 4]` (not `[0, 1]`: the counterexample attains
4, the largest value the head-and-shoulders kernel can produce on a
`[0, 1]`-normalized window; the triangle kernel stays within 1.5). -/
theorem C4_confidence_bounds (prices : List ℚ) :
    ∀ p ∈ detectPatterns prices, 0 ≤ p.confidence ∧ p.confidence ≤ 4 := by
  intro p hp
  rw [detectPatterns] at hp
  by_cases h1 : prices.length < PATTERN_WINDOW
  · rw [if_pos h1] at hp; cases hp
  rw [if_neg h1] at hp
  by_cases h2 : listMax (priceWindowOf prices) = listMin (priceWindowOf prices)
  · rw [if_pos h2] at hp; cases hp
  rw [if_neg h2] at hp
  have hwne : priceWindowOf prices ≠ [] := by
    intro h
    have hw := priceWindow_length prices (by omega)
    rw [h] at hw
    simp [PATTERN_WINDOW] at hw
  have hlt : listMin (priceWindowOf prices) < listMax (priceWindowOf prices) :=
    lt_of_le_of_ne (listMin_le_listMax hwne) (fun h => h2 h.symm)
  have hnorm := normalizeWindow_bounds hlt
  rcases List.mem_append.mp hp with h | h
  · obtain ⟨_, _, _, hidx, hceq⟩ := patternHits_spec h
    exact ⟨hceq ▸ abs_nonneg _, hceq ▸ abs_conv5_triangle_le hnorm (getD_mem hidx)⟩
  · obtain ⟨_, _, _, hidx, hceq⟩ := patternHits_spec h
    exact ⟨hceq ▸ abs_nonneg _, hceq ▸ abs_conv5_hs_le hnorm (getD_mem hidx)⟩

set_option maxRecDepth 40000 in
/-- Witness for C4 (amended), at the concrete head-and-shoulders hit of
confidence 4 emitted on `exAltPrices`. -/
theorem C4_confidence_bounds_witness :
    0 ≤ (PatternResult.mk PatternType.head_and_shoulders 4 0 4).confidence ∧
      (PatternResult.mk PatternType.head_and_shoulders 4 0 4).confidence ≤ 4 :=
  C4_confidence_bounds exAltPrices ⟨PatternType.head_and_shoulders, 4, 0, 4⟩
    (by with_unfolding_all decide)

/-- C10: every pattern emitted by `detectPatterns` has type `triangle` or
`head_and_shoulders` (the `double_top` and `double_bottom` values of the
declared type are never produced), confidence strictly greater than 0.7,
`endIndex = startIndex + 4`, and `startIndex ≤ 25` (window length 30 minus
kernel length 5; `0 ≤ startIndex` holds since indices are naturals). -/
theorem C10_pattern_output_invariant (prices : List ℚ) :
    ∀ p ∈ detectPatterns prices,
      (p.type = PatternType.triangle ∨ p.type = PatternType.head_and_shoulders) ∧
      7/10 < p.confidence ∧ p.endIndex = p.startIndex + 4 ∧ p.startIndex ≤ 25 := by
  intro p hp
  rw [detectPatterns] at hp
  by_cases h1 : prices.length < PATTERN_WINDOW
  · rw [if_pos h1] at hp; cases hp
  rw [if_neg h1] at hp
  by_cases h2 : listMax (priceWindowOf prices) = listMin (priceWindowOf prices)
  · rw [if_pos h2] at hp; cases hp
  rw [if_neg h2] at hp
  have hwlen : (priceWindowOf prices).length = PATTERN_WINDOW :=
    priceWindow_length prices (by omega)
  have hnlen : (normalizeWindow (priceWindowOf prices)).length = 30 := by
    rw [normalizeWindow, List.length_map, hwlen, PATTERN_WINDOW]
  rcases List.mem_append.mp hp with h | h
  · obtain ⟨htype, hconf, hend, hidx, _⟩ := patternHits_spec h
    rw [conv5_length, hnlen] at hidx
    exact ⟨Or.inl htype, hconf, hend, by omega⟩
  · obtain ⟨htype, hconf, hend, hidx, _⟩ := patternHits_spec h
    rw [conv5_length, hnlen] at hidx
    exact ⟨Or.inr htype, hconf, hend, by omega⟩

set_option maxRecDepth 40000 in
/-- Witness for C10, at the concrete triangle hit of confidence 1 emitted
on `exAltPrices`. -/
theorem C10_pattern_output_invariant_witness :
    ((PatternResult.mk PatternType.triangle 1 2 6).type = PatternType.triangle ∨
      (PatternResult.mk PatternType.triangle 1 2 6).type =
        PatternType.head_and_shoulders) ∧
    7/10 < (PatternResult.mk PatternType.triangle 1 2 6).confidence ∧
    (PatternResult.mk PatternType.triangle 1 2 6).endIndex =
      (PatternResult.mk PatternType.triangle 1 2 6).startIndex + 4 ∧
    (PatternResult.mk PatternType.triangle 1 2 6).startIndex ≤ 25 :=
  C10_pattern_output_invariant exAltPrices ⟨PatternType.triangle, 1, 2, 6⟩
    (by with_unfolding_all decide)

/-- C5: for every accepted history (length ≥ 30), the expected-shortfall
computation never divides by a `varIndex` of 0: there are `n ≥ 29` log
returns, `varIndex = floor(n · 0.05) ≥ 1`, the index into the sorted
returns is in range, the tail `sortedReturns.slice(0, varIndex)` is a
non-empty list of exactly `varIndex` elements, and the divisor of
`expectedShortfallOf` is non-zero — so the division is well defined and no
NaN propagates into the returned metrics. -/
theorem C5_var_index_positive (logFn : ℚ → ℚ) (prices : List ℚ)
    (h : 30 ≤ prices.length) :
    1 ≤ varIndexOf (logReturns logFn prices).length ∧
    varIndexOf (logReturns logFn prices).length <
      (sortedReturns logFn prices).length ∧
    ((sortedReturns logFn prices).take
      (varIndexOf (logReturns logFn prices).length)).length =
      varIndexOf (logReturns logFn prices).length ∧
    (sortedReturns logFn prices).take
      (varIndexOf (logReturns logFn prices).length) ≠ [] ∧
    (varIndexOf (logReturns logFn prices).length : ℚ) ≠ 0 := by
  have hlen : (logReturns logFn prices).length = prices.length - 1 := by
    rw [logReturns, List.length_map, List.length_range]
  have hslen : (sortedReturns logFn prices).length = prices.length - 1 := by
    rw [sortedReturns, List.length_mergeSort, hlen]
  have hvar : varIndexOf (logReturns logFn prices).length =
      (prices.length - 1) * 5 / 100 := by rw [varIndexOf, hlen]
  have h1 : 1 ≤ varIndexOf (logReturns logFn prices).length := by rw [hvar]; omega
  have h2 : varIndexOf (logReturns logFn prices).length <
      (sortedReturns logFn prices).length := by rw [hvar, hslen]; omega
  have h3 : ((sortedReturns logFn prices).take
      (varIndexOf (logReturns logFn prices).length)).length =
      varIndexOf (logReturns logFn prices).length := by
    rw [List.length_take, hslen, hvar]; omega
  refine ⟨h1, h2, h3, ?_, ?_⟩
  · have hpos : 0 < ((sortedReturns logFn prices).take
        (varIndexOf (logReturns logFn prices).length)).length := by rw [h3]; omega
    exact List.ne_nil_of_length_pos hpos
  · have h0 : varIndexOf (logReturns logFn prices).length ≠ 0 := by omega
    exact_mod_cast h0

/-- Witness for C5: the 30-price flat history, with the logarithm
instantiated by the identity. -/
theorem C5_var_index_positive_witness :
    1 ≤ varIndexOf (logReturns id (List.replicate 30 (1:ℚ))).length ∧
    varIndexOf (logReturns id (List.replicate 30 (1:ℚ))).length <
      (sortedReturns id (List.replicate 30 (1:ℚ))).length ∧
    ((sortedReturns id (List.replicate 30 (1:ℚ))).take
      (varIndexOf (logReturns id (List.replicate 30 (1:ℚ))).length)).length =
      varIndexOf (logReturns id (List.replicate 30 (1:ℚ))).length ∧
    (sortedReturns id (List.replicate 30 (1:ℚ))).take
      (varIndexOf (logReturns id (List.replicate 30 (1:ℚ))).length) ≠ [] ∧
    (varIndexOf (logReturns id (List.replicate 30 (1:ℚ))).length : ℚ) ≠ 0 :=
  C5_var_index_positive id (List.replicate 30 (1:ℚ)) (by simp)

/-- C7: the recorded portfolio value is the sum over the holdings of
`quantity × current price`, a symbol absent from the last-snapshot map
(such as `sym` here) is valued at 0 (and recording is skipped entirely
only for an empty portfolio, never because of a missing symbol), and the
concrete holding `{BTC/USD: qty 0.5}` against price 95000 values to
exactly 47500. -/
theorem C7_portfolio_valuation (portfolio : List Position) (m : LastMarketData)
    (sym : String) (hnone : m.find? (fun e => e.1 = sym) = none) :
    totalValue portfolio m =
      (portfolio.map (fun pos => pos.amount * currentPriceOf m pos.symbol)).sum ∧
    currentPriceOf m sym = 0 ∧
    updatePortfolioValue portfolio m =
      (if portfolio.length = 0 then none
        else some (totalValue portfolio m)) ∧
    totalValue [⟨"BTC/USD", 1/2⟩] [("BTC/USD", btcSnapshot)] = 47500 := by
  refine ⟨?_, ?_, ?_, ?_⟩
  · rw [totalValue, List.sum_eq_foldl, List.foldl_map]
  · simp [currentPriceOf, hnone]
  · rw [updatePortfolioValue]
    by_cases h0 : portfolio.length = 0
    · rw [if_neg (by omega), if_pos h0]
    · rw [if_pos (by omega), if_neg h0]
  · simp [totalValue, currentPriceOf, btcSnapshot, List.find?]
    norm_num

/-- Witness for C7: the BTC holding of quantity 0.5 against the one-entry
price map, probing the absent symbol SOL/USD. -/
theorem C7_portfolio_valuation_witness :
    totalValue [⟨"BTC/USD", 1/2⟩] [("BTC/USD", btcSnapshot)] =
      (([⟨"BTC/USD", 1/2⟩] : List Position).map
        (fun pos => pos.amount *
          currentPriceOf [("BTC/USD", btcSnapshot)] pos.symbol)).sum ∧
    currentPriceOf [("BTC/USD", btcSnapshot)] "SOL/USD" = 0 ∧
    updatePortfolioValue [⟨"BTC/USD", 1/2⟩] [("BTC/USD", btcSnapshot)] =
      (if ([⟨"BTC/USD", 1/2⟩] : List Position).length = 0 then none
        else some (totalValue [⟨"BTC/USD", 1/2⟩] [("BTC/USD", btcSnapshot)])) ∧
    totalValue [⟨"BTC/USD", 1/2⟩] [("BTC/USD", btcSnapshot)] = 47500 :=
  C7_portfolio_valuation [⟨"BTC/USD", 1/2⟩] [("BTC/USD", btcSnapshot)]
    "SOL/USD" (by simp)

theorem initialSends_eq_map (m : LastMarketData) :
    initialSendsOnConnect m = m.map Prod.snd := by
  have h : ∀ acc : List MarketData,
      m.foldl (fun sent entry => sent ++ [entry.2]) acc = acc ++ m.map Prod.snd := by
    induction m with
    | nil => intro acc; simp
    | cons e rest ih => intro acc; simp [ih]
  simpa [initialSendsOnConnect] using h []

/-- C8: catch-up delivery on subscribe.  For a well-formed last-snapshot
map (distinct symbol keys, each snapshot carrying its own symbol — both
maintained by `lastMarketData.set(symbol, marketData)`), the connection
handler immediately sends exactly one message per symbol present in the
map, and the messages whose symbol is `sym` are exactly the single last
broadcast snapshot stored for `sym`, verbatim. -/
theorem C8_catchup_delivery (m : LastMarketData) (sym : String) (data : MarketData)
    (hkeys : (m.map Prod.fst).Nodup)
    (hsym : ∀ e ∈ m, e.2.symbol = e.1)
    (hmem : (sym, data) ∈ m) :
    (initialSendsOnConnect m).length = m.length ∧
    (initialSendsOnConnect m).filter (fun d => decide (d.symbol = sym)) = [data] := by
  refine ⟨by rw [initialSends_eq_map, List.length_map], ?_⟩
  rw [initialSends_eq_map]
  induction m with
  | nil => cases hmem
  | cons e rest ih =>
    obtain ⟨k, d⟩ := e
    have hknotin : k ∉ rest.map Prod.fst := by
      have := List.map_cons Prod.fst (k, d) rest ▸ hkeys
      exact (List.nodup_cons.mp this).1
    have hkeys2 : (rest.map Prod.fst).Nodup := by
      have := List.map_cons Prod.fst (k, d) rest ▸ hkeys
      exact (List.nodup_cons.mp this).2
    have hdsym : d.symbol = k := hsym (k, d) (List.mem_cons_self _ _)
    rcases List.mem_cons.mp hmem with heq | hmem2
    · injection heq with hk hd
      subst hk
      subst hd
      rw [List.map_cons, List.filter_cons, if_pos (by simp [hdsym])]
      have hrest : (rest.map Prod.snd).filter (fun d => decide (d.symbol = sym)) = [] := by
        rw [List.filter_eq_nil_iff]
        intro a ha
        rw [List.mem_map] at ha
        obtain ⟨e2, he2, rfl⟩ := ha
        have h1 : e2.2.symbol = e2.1 := hsym e2 (List.mem_cons_of_mem _ he2)
        have h2 : e2.1 ∈ rest.map Prod.fst := List.mem_map_of_mem Prod.fst he2
        simp only [decide_eq_true_eq]
        rw [h1]
        intro hcontra
        rw [hcontra] at h2
        exact hknotin h2
      rw [hrest]
    · have hsymne : d.symbol ≠ sym := by
        rw [hdsym]
        intro hk
        subst hk
        exact hknotin (List.mem_map_of_mem Prod.fst hmem2)
      rw [List.map_cons, List.filter_cons, if_neg (by simp [hsymne])]
      exact ih hkeys2 (fun e2 he2 => hsym e2 (List.mem_cons_of_mem _ he2)) hmem2

set_option maxRecDepth 40000 in
/-- Witness for C8: a two-symbol last-snapshot map; the subscriber is sent
two messages, and the one for BTC/USD is the stored BTC snapshot verbatim. -/
theorem C8_catchup_delivery_witness :
    (initialSendsOnConnect
        [("BTC/USD", btcSnapshot), ("ETH/USD", ethSnapshot)]).length =
      ([("BTC/USD", btcSnapshot), ("ETH/USD", ethSnapshot)] :
        LastMarketData).length ∧
    (initialSendsOnConnect
        [("BTC/USD", btcSnapshot), ("ETH/USD", ethSnapshot)]).filter
      (fun d => decide (d.symbol = "BTC/USD")) = [btcSnapshot] :=
  C8_catchup_delivery [("BTC/USD", btcSnapshot), ("ETH/USD", ethSnapshot)]
    "BTC/USD" btcSnapshot (by simp)
    (by simp [btcSnapshot, ethSnapshot]) (List.mem_cons_self _ _)

/-- C9 counterexample: dead-subscriber removal on publish does not cover
every channel that fails to accept the push.  A client whose readyState is
not OPEN (here closed) receives nothing during the broadcast — it fails to
accept the push — yet it is skipped, not removed: it is still in the
subscriber set at the end of the broadcast.  (There is also no per-send
timeout anywhere in `broadcast`.) -/
theorem C9_counterexample :
    broadcastDelivered [⟨0, false, false⟩] = [] ∧
    broadcastSurvivors [⟨0, false, false⟩] = [⟨0, false, false⟩] := by
  decide

/-- C9 (amended): during one broadcast, a channel is removed from the
subscriber set exactly when it is OPEN and its `send` throws — it stays
exactly when it is not OPEN (skipped, receiving nothing) or its `send`
succeeds.  A channel is delivered to exactly when it is OPEN and its
`send` does not throw.  In particular a removed channel got no payload
from this broadcast, but a non-OPEN channel also gets no payload and is
nevertheless kept; no per-send timeout exists. -/
theorem C9_broadcast_removal (clients : List Client) (c : Client) :
    (c ∈ broadcastSurvivors clients ↔
      c ∈ clients ∧ (c.isOpen = false ∨ c.sendFails = false)) ∧
    (c ∈ broadcastDelivered clients ↔
      c ∈ clients ∧ c.isOpen = true ∧ c.sendFails = false) := by
  constructor
  · rw [broadcastSurvivors, List.mem_filter]
    constructor
    · rintro ⟨h1, h2⟩
      refine ⟨h1, ?_⟩
      cases ho : c.isOpen <;> cases hf : c.sendFails <;> simp_all
    · rintro ⟨h1, h2⟩
      refine ⟨h1, ?_⟩
      cases h2 with
      | inl ho => rw [ho]; rfl
      | inr hf => rw [hf]; cases c.isOpen <;> rfl
  · rw [broadcastDelivered, List.mem_filter]
    constructor
    · rintro ⟨h1, h2⟩
      cases ho : c.isOpen <;> cases hf : c.sendFails <;> simp_all
    · rintro ⟨h1, ho, hf⟩
      exact ⟨h1, by rw [ho, hf]; rfl⟩

end DATN
